import Mathlib

/-!
# Verification of the twitter_watcher watch-list poller

Shallow embedding of `src/modules/twitter_watcher/service.py`.

Modelling conventions:
* Tweet ids are modelled as `Nat`.  The source keeps them as decimal strings
  and converts with `int(...)` / `str(...)` at every comparison and store;
  those conversions are mutually inverse on canonical decimals, so the
  embedding works with the numeric value directly.
* The in-memory watch list `_watchlist : dict[str, WatchedUser]` is modelled
  as an insertion-ordered association list (Python dicts preserve insertion
  order; assignment to an existing key keeps its position).
* Python string helpers that the service applies to usernames
  (`.upper()`, `.strip()`, `.lstrip("@")`) are re-implemented character by
  character so that they compute under `decide`; for the ASCII inputs the
  service handles they agree with Python.
* Exceptions are modelled with `Except Unit`: a caught per-account failure
  is a `.error ()` fetch result, an uncaught Python exception inside the
  restore handler is a `fault` outcome.
* `_fire_hook` performs outbound I/O and swallows its own exceptions; the
  embedding records the payload it was handed in an event list instead.
  `_last_poll_at` and the TUI notifications have no bearing on any claim and
  are omitted.
-/


/-- One item returned by the feed source: tweepy gives `id`, `text` and an
optional `created_at` datetime (rendered by the service with `isoformat()`,
here kept as the rendered string). -/
structure Tweet where
  id : Nat
  text : String
  created_at : Option String
deriving Repr, DecidableEq

/-- `WatchedUser` dataclass from the source: original-case `username`,
resolved numeric `user_id`, optional `since_id` watermark, `added_at`
timestamp string. -/
structure WatchedUser where
  username : String
  user_id : String
  since_id : Option Nat
  added_at : String
deriving Repr, DecidableEq

/-- `_watchlist : dict[str, WatchedUser]`, key = uppercased username,
modelled as an insertion-ordered association list. -/
abbrev Watchlist := List (String × WatchedUser)

/-- Dict membership / lookup: first (and, for genuine dict states, only)
binding of the key. -/
def wlLookup (wl : Watchlist) (k : String) : Option WatchedUser :=
  match wl with
  | [] => none
  | p :: rest => if p.1 = k then some p.2 else wlLookup rest k

/-- `key in _watchlist`. -/
def wlContains (wl : Watchlist) (k : String) : Bool :=
  (wlLookup wl k).isSome

/-- Python dict assignment `_watchlist[key] = u`: replaces in place if the
key is bound, otherwise appends at the end (insertion order). -/
def wlSet (wl : Watchlist) (k : String) (u : WatchedUser) : Watchlist :=
  match wl with
  | [] => [(k, u)]
  | p :: rest => if p.1 = k then (k, u) :: rest else p :: wlSet rest k u

/-- `_watchlist.pop(key, None)`: drop the binding if present. -/
def wlErase (wl : Watchlist) (k : String) : Watchlist :=
  wl.filter (fun p => decide (p.1 ≠ k))

/-- Python `str.upper()` for the ASCII usernames the service handles. -/
def pyUpper (s : String) : String :=
  String.mk (s.toList.map Char.toUpper)

/-- Default whitespace stripped by Python `str.strip()`. -/
def pyIsSpace (c : Char) : Bool :=
  c = ' ' || c = '\t' || c = '\n' || c = '\r'

/-- `(data.get("username") or "").strip().lstrip("@")`: trim whitespace on
both ends, then drop every leading `@`. -/
def cleanUsername (s : String) : String :=
  String.mk
    ((((s.toList.dropWhile pyIsSpace).reverse.dropWhile pyIsSpace).reverse).dropWhile
      (fun c => c = '@'))

/-- The dict key used for a user everywhere in the source:
`user.username.upper()`. -/
def ukey (u : WatchedUser) : String := pyUpper u.username

/-- Payload handed to `_fire_hook` for one tweet (the `tweet_id` field holds
`str(tweet.id)` in the source, kept numeric here). -/
structure HookPayload where
  username : String
  user_id : String
  tweet_id : Nat
  tweet_text : String
  tweet_url : String
  created_at : String
deriving Repr, DecidableEq

/-- `f"https://twitter.com/{user.username}/status/{tweet.id}"`. -/
def tweetUrl (username : String) (id : Nat) : String :=
  "https://twitter.com/" ++ username ++ "/status/" ++ toString id

/-- The hook payload dict built inside the tweet loop of `_poll_once`
(`created_at` is the rendered datetime, or `""` when the field is absent). -/
def mkHook (u : WatchedUser) (t : Tweet) : HookPayload :=
  { username := u.username
    user_id := u.user_id
    tweet_id := t.id
    tweet_text := t.text
    tweet_url := tweetUrl u.username t.id
    created_at := t.created_at.getD "" }

/-- `sorted(resp.data, key=lambda t: int(t.id))`: Python `sorted` is a
stable ascending sort, which is exactly insertion sort on the id order. -/
def sortAsc (ts : List Tweet) : List Tweet :=
  List.insertionSort (fun a b => a.id ≤ b.id) ts

instance : IsTotal Tweet (fun a b => a.id ≤ b.id) :=
  ⟨fun a b => Nat.le_total a.id b.id⟩

instance : IsTrans Tweet (fun a b => a.id ≤ b.id) :=
  ⟨fun _ _ _ h1 h2 => Nat.le_trans h1 h2⟩

/-- `tweets[-1].id` after the ascending sort (the branch is only reached on
a non-empty list; `0` is a dead default). -/
def newestOf (ts : List Tweet) : Nat :=
  match (sortAsc ts).getLast? with
  | some t => t.id
  | none => 0

/-- `max(int(t.id) for t in resp.data)` (only evaluated on non-empty
lists). -/
def maxIdOf (ts : List Tweet) : Nat :=
  (ts.map (fun t => t.id)).foldl max 0

/-- `_watchlist[key].since_id = newest_id`: update the `since_id` field of
the binding at `key`, leaving everything else in place. -/
def setSince (wl : Watchlist) (key : String) (newest : Nat) : Watchlist :=
  wl.map (fun p => if p.1 = key then (p.1, { p.2 with since_id := some newest }) else p)

/-- Body of the per-user loop of `_poll_once` for one snapshot user `u`:
fetch (with `since_id` only when present), skip empty results, sort
ascending, fire one hook per tweet in that order, then set the live
entry's watermark to the last (newest) id — guarded by `key in _watchlist`.
A fetch failure is caught and leaves everything unchanged. -/
def pollUser (fetch : WatchedUser → Except Unit (List Tweet)) (wl : Watchlist)
    (u : WatchedUser) : Watchlist × List HookPayload :=
  match fetch u with
  | .error _ => (wl, [])
  | .ok ts =>
    if ts.isEmpty then (wl, [])
    else
      let tweets := sortAsc ts
      let hooks := tweets.map (mkHook u)
      let key := ukey u
      (if wlContains wl key then setSince wl key (newestOf ts) else wl, hooks)

/-- The `for user in users:` loop of `_poll_once`, threading the live
watch list and accumulating fired hook payloads in order. -/
def pollAccounts (fetch : WatchedUser → Except Unit (List Tweet)) :
    List WatchedUser → Watchlist → Watchlist × List HookPayload
  | [], wl => (wl, [])
  | u :: rest, wl =>
    let r1 := pollUser fetch wl u
    let r2 := pollAccounts fetch rest r1.1
    (r2.1, r1.2 ++ r2.2)

/-- `_poll_once`: snapshot the watch list under the lock, then poll every
snapshot user (an empty snapshot returns immediately, which the fold also
does). -/
def pollOnce (fetch : WatchedUser → Except Unit (List Tweet)) (wl : Watchlist) :
    Watchlist × List HookPayload :=
  pollAccounts fetch (wl.map (fun p => p.2)) wl

/-- Body of the per-user loop of `_seed_since_ids` for one snapshot user:
fetch the most recent items (no `since_id` constraint in the source call),
and if any were returned set the watermark to the maximum id — firing no
hooks.  Failures are caught and leave everything unchanged. -/
def seedUser (fetch : WatchedUser → Except Unit (List Tweet)) (wl : Watchlist)
    (u : WatchedUser) : Watchlist × List HookPayload :=
  match fetch u with
  | .error _ => (wl, [])
  | .ok ts =>
    if ts.isEmpty then (wl, [])
    else
      let key := ukey u
      (if wlContains wl key then setSince wl key (maxIdOf ts) else wl, [])

/-- The `for user in users:` loop of `_seed_since_ids`. -/
def seedAccounts (fetch : WatchedUser → Except Unit (List Tweet)) :
    List WatchedUser → Watchlist → Watchlist × List HookPayload
  | [], wl => (wl, [])
  | u :: rest, wl =>
    let r1 := seedUser fetch wl u
    let r2 := seedAccounts fetch rest r1.1
    (r2.1, r1.2 ++ r2.2)

/-- `_seed_since_ids`: snapshot only the users whose watermark is absent,
then seed each of them. -/
def seedSinceIds (fetch : WatchedUser → Except Unit (List Tweet)) (wl : Watchlist) :
    Watchlist × List HookPayload :=
  seedAccounts fetch ((wl.filter (fun p => p.2.since_id.isNone)).map (fun p => p.2)) wl

instance : IsTotal Tweet (fun a b => b.id ≤ a.id) :=
  ⟨fun a b => Nat.le_total b.id a.id⟩

instance : IsTrans Tweet (fun a b => b.id ≤ a.id) :=
  ⟨fun _ _ _ h1 h2 => Nat.le_trans h2 h1⟩

/-- The Twitter API v2 call `client.get_users_tweets(id, max_results=5,
since_id=w?)` as documented: of the account timeline, the tweets with id
strictly greater than `since_id` (all of them when absent), newest-first,
truncated to the page size 5 requested by the service. -/
def twitterFetch (timeline : List Tweet) (since : Option Nat) : List Tweet :=
  let newer :=
    match since with
    | none => timeline
    | some w => timeline.filter (fun t => decide (w < t.id))
  (List.insertionSort (fun a b => b.id ≤ a.id) newer).take 5

/-- `MIN_POLL_INTERVAL = 30` from the source configuration block. -/
def MIN_POLL_INTERVAL : Int := 30

/-- `DEFAULT_POLL_INTERVAL = 120`. -/
def DEFAULT_POLL_INTERVAL : Int := 120

/-- The mutable module state the control surface touches: `_watchlist` and
`_poll_interval`. -/
structure ServiceState where
  watchlist : Watchlist
  poll_interval : Int
deriving Repr, DecidableEq

/-- Result of the `add` action of `rpc_twitter_watcher`. -/
inductive AddResult where
  | errMissingUsername
  | alreadyWatching (username : String)
  | errNoClient
  | errResolutionFailed (username : String)
  | added (username : String) (user_id : String)
deriving Repr, DecidableEq

/-- The `add` branch of `rpc_twitter_watcher`.  `resolve` stands for
`_resolve_user_id` (returns `none` on failure), `clientAvailable` for the
four API keys being configured, `now` for the `added_at` default taken at
dataclass construction. -/
def actionAdd (resolve : String → Option String) (clientAvailable : Bool)
    (now : String) (usernameRaw : String) (st : ServiceState) :
    AddResult × ServiceState :=
  let username := cleanUsername usernameRaw
  if username = "" then (.errMissingUsername, st)
  else
    let key := pyUpper username
    if wlContains st.watchlist key then
      (.alreadyWatching (((wlLookup st.watchlist key).map
        (fun v => v.username)).getD ""), st)
    else if clientAvailable = false then (.errNoClient, st)
    else
      match resolve username with
      | none => (.errResolutionFailed username, st)
      | some uid =>
        (.added username uid,
         { st with watchlist := wlSet st.watchlist key ⟨username, uid, none, now⟩ })

/-- Result of the `remove` action (both outcomes are `success` responses in
the source, distinguished by the message). -/
inductive RemoveResult where
  | errMissingUsername
  | stopped (username : String)
  | wasNotWatching (username : String)
deriving Repr, DecidableEq

/-- The `remove` branch of `rpc_twitter_watcher`. -/
def actionRemove (usernameRaw : String) (st : ServiceState) :
    RemoveResult × ServiceState :=
  let username := cleanUsername usernameRaw
  if username = "" then (.errMissingUsername, st)
  else
    let key := pyUpper username
    let existed := wlContains st.watchlist key
    let st1 := { st with watchlist := wlErase st.watchlist key }
    if existed then (.stopped username, st1) else (.wasNotWatching username, st1)

/-- Result of the `set_interval` action. -/
inductive SetIntervalResult where
  | errBelowMin
  | ok (interval : Int)
deriving Repr, DecidableEq

/-- The `set_interval` branch of `rpc_twitter_watcher`, after the
`int(interval)` conversion has succeeded (the missing/non-integer paths
return validation errors without touching state and are outside every
claim's quantification, which ranges over integers). -/
def actionSetInterval (interval : Int) (st : ServiceState) :
    SetIntervalResult × ServiceState :=
  if interval < MIN_POLL_INTERVAL then (.errBelowMin, st)
  else (.ok interval, { st with poll_interval := interval })

/-- One element of the `backup_export` response. -/
structure ExportEntry where
  username : String
  user_id : String
  since_id : Option Nat
  added_at : String
deriving Repr, DecidableEq

/-- `backup_export`: list the entries in dict (insertion) order. -/
def backupExport (wl : Watchlist) : List ExportEntry :=
  wl.map (fun p => ⟨p.2.username, p.2.user_id, p.2.since_id, p.2.added_at⟩)

/-- A JSON value as Flask's `request.get_json` produces it. -/
inductive Json where
  | null
  | bool (b : Bool)
  | num (n : Int)
  | str (s : String)
  | arr (items : List Json)
  | obj (fields : List (String × Json))

/-- `d.get(k, default)` on a JSON object. -/
def jGet (fields : List (String × Json)) (k : String) (dflt : Json) : Json :=
  (fields.lookup k).getD dflt

/-- Python truthiness of a JSON value. -/
def jTruthy : Json → Bool
  | .null => false
  | .bool b => b
  | .num n => decide (n ≠ 0)
  | .str s => decide (s ≠ "")
  | .arr xs => !xs.isEmpty
  | .obj fs => !fs.isEmpty

/-- `for entry in entries:` on a JSON value: lists yield their elements,
strings their characters (as one-character strings), objects their keys;
anything else raises `TypeError`. -/
def pyIter : Json → Except Unit (List Json)
  | .arr xs => .ok xs
  | .str s => .ok (s.toList.map (fun c => .str (String.mk [c])))
  | .obj fs => .ok (fs.map (fun p => .str p.1))
  | _ => .error ()

/-- `len` on the iterable JSON values (only ever applied after `pyIter`
succeeded). -/
def pyLen : Json → Nat
  | .arr xs => xs.length
  | .str s => s.length
  | .obj fs => fs.length
  | _ => 0

/-- The wire encoding `backup_export` emits for one entry (`since_id` is
carried numerically here, see the module conventions). -/
def exportEntryToJson (e : ExportEntry) : Json :=
  .obj [("username", .str e.username), ("user_id", .str e.user_id),
        ("since_id", match e.since_id with | none => .null | some n => .num (Int.ofNat n)),
        ("added_at", .str e.added_at)]

/-- One iteration of the restore loop: read `username` / `user_id` with
empty-string defaults, skip falsy ones, otherwise insert a rebuilt
`WatchedUser` under the uppercased key.  A non-object entry raises
(`.get` on it) and so does an object whose `username` is truthy but not a
string (`.upper()` on it); a truthy non-string `user_id` is stored raw by
Python — no service-produced payload contains one, and the embedding
treats it as the same fault. -/
def restoreStep (now : String) (wl : Watchlist) (entry : Json) :
    Except Unit Watchlist :=
  match entry with
  | .obj fields =>
    let username := jGet fields "username" (.str "")
    let uid := jGet fields "user_id" (.str "")
    if jTruthy username && jTruthy uid then
      match username, uid with
      | .str uname, .str uidStr =>
        let since : Option Nat :=
          match jGet fields "since_id" .null with
          | .num m => some m.toNat
          | _ => none
        let added : String :=
          match jGet fields "added_at" (.str now) with
          | .str s => s
          | _ => now
        .ok (wlSet wl (pyUpper uname) ⟨uname, uidStr, since, added⟩)
      | _, _ => .error ()
    else .ok wl
  | _ => .error ()

/-- The `for entry in entries:` loop of `backup_restore`, run over the
already-cleared watch list; an uncaught exception leaves the partial
state behind (`Except.error` carries it). -/
def restoreLoop (now : String) : List Json → Watchlist → Except Watchlist Watchlist
  | [], wl => .ok wl
  | e :: rest, wl =>
    match restoreStep now wl e with
    | .error _ => .error wl
    | .ok wl1 => restoreLoop now rest wl1

/-- Outcome of `backup_restore`: a structured error response, a structured
success response, or an uncaught Python exception (HTTP 500), each paired
with the watch-list state it leaves behind. -/
inductive RestoreOutcome where
  | errorResult (msg : String) (wl : Watchlist)
  | okResult (restored : Nat) (wl : Watchlist)
  | fault (wl : Watchlist)
deriving Repr, DecidableEq

/-- `backup_restore`: `none` models `get_json` failing to parse.  On a
parsed payload, a list is used directly and a dict contributes
`data.get("data", [])`; any other value raises on `.get` before the lock
is taken.  Then the watch list is cleared and the entries are loaded one
by one (a raised `TypeError`/`AttributeError` there strikes after the
clear). -/
def backupRestore (now : String) (payload : Option Json) (wl : Watchlist) :
    RestoreOutcome :=
  match payload with
  | none => .errorResult "Invalid JSON payload" wl
  | some data =>
    match
      (match data with
       | .arr _ => Except.ok data
       | .obj fields => Except.ok (jGet fields "data" (.arr []))
       | _ => Except.error ()) with
    | .error _ => .fault wl
    | .ok entries =>
      match pyIter entries with
      | .error _ => .fault []
      | .ok items =>
        match restoreLoop now items [] with
        | .error wl1 => .fault wl1
        | .ok wl1 => .okResult (pyLen entries) wl1

/-! ## Registry well-formedness

Every state the service itself constructs keys each entry by the uppercased
username, with pairwise-distinct keys; `add` refuses empty usernames and
resolution yields non-empty ids, so stored entries have non-empty
`username` and `user_id`.  The predicates below package exactly that, and
theorems about "every Registry state" are stated for well-formed states. -/

/-- Every binding is keyed by the uppercased username of its entry. -/
def KeysConsistent (wl : Watchlist) : Prop := ∀ p ∈ wl, p.1 = ukey p.2

/-- No two bindings share a key (true of any Python dict). -/
def KeysDistinct (wl : Watchlist) : Prop :=
  List.Pairwise (fun p q => p.1 ≠ q.1) wl

/-- A watch-list state as the service maintains it. -/
def WFW (wl : Watchlist) : Prop := KeysConsistent wl ∧ KeysDistinct wl

/-- Entries carry the non-empty fields `add` and `restore` enforce. -/
def FieldsNonEmpty (wl : Watchlist) : Prop :=
  ∀ p ∈ wl, p.2.username ≠ "" ∧ p.2.user_id ≠ ""

/-- The entry a poll tick leaves behind for snapshot user `u`. -/
def pollResultEntry (fetch : WatchedUser → Except Unit (List Tweet))
    (u : WatchedUser) : WatchedUser :=
  match fetch u with
  | .error _ => u
  | .ok ts => if ts.isEmpty then u else { u with since_id := some (newestOf ts) }

/-- The hook payloads a poll tick fires for snapshot user `u`, in firing
order. -/
def userEvents (fetch : WatchedUser → Except Unit (List Tweet))
    (u : WatchedUser) : List HookPayload :=
  match fetch u with
  | .error _ => []
  | .ok ts => if ts.isEmpty then [] else (sortAsc ts).map (mkHook u)

/-- The entry the seeding pass leaves behind for snapshot user `u`
(whose watermark was absent). -/
def seedResultEntry (fetch : WatchedUser → Except Unit (List Tweet))
    (u : WatchedUser) : WatchedUser :=
  match fetch u with
  | .error _ => u
  | .ok ts => if ts.isEmpty then u else { u with since_id := some (maxIdOf ts) }

instance (wl : Watchlist) : Decidable (KeysConsistent wl) :=
  List.decidableBAll _ wl

instance (wl : Watchlist) : Decidable (KeysDistinct wl) :=
  inferInstanceAs (Decidable (List.Pairwise _ wl))

instance (wl : Watchlist) : Decidable (WFW wl) :=
  inferInstanceAs (Decidable (KeysConsistent wl ∧ KeysDistinct wl))

instance (wl : Watchlist) : Decidable (FieldsNonEmpty wl) :=
  List.decidableBAll _ wl

/-- Watermark order: `none` (absent) is below everything; present watermarks
compare by item id. -/
def wmLE (a b : Option Nat) : Prop :=
  ∀ x, a = some x → ∃ y, b = some y ∧ x ≤ y

def tsC3 : List Tweet :=
  [⟨103, "third", some "2026-02-03T00:00:00+00:00"⟩, ⟨102, "second", none⟩,
   ⟨101, "first", none⟩]

def aliceC3 : WatchedUser := ⟨"Alice", "11", some 100, "t0"⟩

def wlC3 : Watchlist := [("ALICE", aliceC3)]

def fetchC3 : WatchedUser → Except Unit (List Tweet) := fun _ => Except.ok tsC3

def tsC5 : List Tweet :=
  [⟨205, "e5", none⟩, ⟨204, "e4", none⟩, ⟨203, "e3", none⟩, ⟨202, "e2", none⟩,
   ⟨201, "e1", none⟩]

def bobC5 : WatchedUser := ⟨"bob", "22", none, "t0"⟩

def wlC5 : Watchlist := [("BOB", bobC5)]

def fetchC5 : WatchedUser → Except Unit (List Tweet) := fun _ => Except.ok tsC5

def daveC6 : WatchedUser := ⟨"dave", "44", some 100, "t0"⟩

def wlC6 : Watchlist := [("DAVE", daveC6)]

def fetchC6 : WatchedUser → Except Unit (List Tweet) :=
  fun u => Except.ok [⟨u.since_id.getD 0 + 1, "next", none⟩]

def evanC7 : WatchedUser := ⟨"evan", "55", some 50, "t0"⟩

def fayC7 : WatchedUser := ⟨"fay", "66", some 60, "t1"⟩

def wlC7 : Watchlist := [("EVAN", evanC7), ("FAY", fayC7)]

def tsC7 : List Tweet := [⟨62, "y", none⟩, ⟨61, "x", none⟩]

def fetchC7 : WatchedUser → Except Unit (List Tweet) :=
  fun u => if u.username = "evan" then Except.error () else Except.ok tsC7

def tlC1 : List Tweet := [⟨7, "hello", some "2026-02-01T00:00:00+00:00"⟩]

def aliceC1 : WatchedUser := ⟨"alice", "11", none, "t0"⟩

def wlC1 : Watchlist := [("ALICE", aliceC1)]

def fetchC1 : WatchedUser → Except Unit (List Tweet) :=
  fun u => Except.ok (twitterFetch tlC1 u.since_id)

def tlC2 : List Tweet :=
  [⟨11, "a", none⟩, ⟨12, "b", none⟩, ⟨13, "c", none⟩, ⟨14, "d", none⟩,
   ⟨15, "e", none⟩, ⟨16, "f", none⟩]

def bobC2 : WatchedUser := ⟨"bob", "22", some 10, "t0"⟩

def wlC2 : Watchlist := [("BOB", bobC2)]

def fetchC2 : WatchedUser → Except Unit (List Tweet) :=
  fun u => Except.ok (twitterFetch tlC2 u.since_id)

def wlC4 : Watchlist := [("ALICE", ⟨"alice", "11", some 7, "t0"⟩)]

def wlC8 : Watchlist :=
  [("ALICE", ⟨"alice", "11", some 7, "t0"⟩), ("BOB", ⟨"Bob", "22", none, "t1"⟩)]

def wlC8prior : Watchlist := [("OLD", ⟨"old", "99", some 1, "s"⟩)]

def resolveC9 : String → Option String := fun _ => some "42"

def stC9 : ServiceState := ⟨[], DEFAULT_POLL_INTERVAL⟩

def stC10 : ServiceState := ⟨[("ALICE", ⟨"alice", "11", some 7, "t0"⟩)], DEFAULT_POLL_INTERVAL⟩

/-! ## Association-list lemmas -/

theorem wlLookup_mem {wl : Watchlist} {k : String} {v : WatchedUser}
    (h : wlLookup wl k = some v) : (k, v) ∈ wl := by
  induction wl with
  | nil => simp [wlLookup] at h
  | cons p rest ih =>
    by_cases hk : p.1 = k
    · simp only [wlLookup, if_pos hk] at h
      injection h with h2
      rw [← h2, ← hk]
      exact List.mem_cons_self _ _
    · simp only [wlLookup, if_neg hk] at h
      exact List.mem_cons_of_mem _ (ih h)

theorem mem_wlLookup {wl : Watchlist} {k : String} {v : WatchedUser}
    (hd : KeysDistinct wl) (h : (k, v) ∈ wl) : wlLookup wl k = some v := by
  induction wl with
  | nil => cases h
  | cons p rest ih =>
    rcases List.mem_cons.mp h with h1 | h1
    · subst h1
      simp [wlLookup]
    · have hne : p.1 ≠ k := by
        have := (List.pairwise_cons.mp hd).1 _ h1
        simpa using this
      simp only [wlLookup, if_neg hne]
      exact ih (List.pairwise_cons.mp hd).2 h1

theorem keys_unique {wl : Watchlist} (hd : KeysDistinct wl)
    {p q : String × WatchedUser} (hp : p ∈ wl) (hq : q ∈ wl) (hk : p.1 = q.1) :
    p = q := by
  have h1 : wlLookup wl p.1 = some p.2 := mem_wlLookup hd hp
  have h2 : wlLookup wl q.1 = some q.2 := mem_wlLookup hd hq
  rw [hk, h2] at h1
  injection h1 with h3
  cases p
  cases q
  simp_all

theorem wlLookup_setSince (wl : Watchlist) (key : String) (n : Nat) (k : String) :
    wlLookup (setSince wl key n) k =
      if k = key then (wlLookup wl k).map (fun v => { v with since_id := some n })
      else wlLookup wl k := by
  induction wl with
  | nil => by_cases h : k = key <;> simp [setSince, wlLookup, h]
  | cons p rest ih =>
    by_cases hk : k = key
    · subst hk
      by_cases hpk : p.1 = k
      · simp [setSince, wlLookup, hpk]
      · simp only [setSince, List.map_cons, if_neg hpk] at *
        simp only [wlLookup, if_neg hpk]
        simpa using ih
    · by_cases hpk : p.1 = key
      · have hp2 : ¬ p.1 = k := fun he => hk ((he.symm.trans hpk))
        simp only [setSince, List.map_cons, if_pos hpk] at *
        simp only [wlLookup, if_neg hp2]
        simpa [hk] using ih
      · by_cases hpk2 : p.1 = k
        · simp [setSince, wlLookup, hpk, hpk2, hk]
        · simp only [setSince, List.map_cons, if_neg hpk] at *
          simp only [wlLookup, if_neg hpk2]
          simpa [hk] using ih

theorem wlSet_not_contains {wl : Watchlist} {k : String}
    (h : wlContains wl k = false) (u : WatchedUser) :
    wlSet wl k u = wl ++ [(k, u)] := by
  induction wl with
  | nil => rfl
  | cons p rest ih =>
    have hpk : ¬ p.1 = k := by
      intro he
      simp [wlContains, wlLookup, he] at h
    have hrest : wlContains rest k = false := by
      simpa [wlContains, wlLookup, hpk] using h
    simp [wlSet, hpk, ih hrest]

theorem wlErase_not_contains {wl : Watchlist} {k : String}
    (h : wlContains wl k = false) : wlErase wl k = wl := by
  induction wl with
  | nil => rfl
  | cons p rest ih =>
    have hpk : ¬ p.1 = k := by
      intro he
      simp [wlContains, wlLookup, he] at h
    have hrest : wlContains rest k = false := by
      simpa [wlContains, wlLookup, hpk] using h
    have ih2 := ih hrest
    have hcond : decide (p.1 ≠ k) = true := by simp [hpk]
    simp only [wlErase] at ih2 ⊢
    rw [List.filter_cons, if_pos hcond, ih2]

theorem wlErase_append_single (wl : Watchlist) (k : String) (u : WatchedUser) :
    wlErase (wl ++ [(k, u)]) k = wlErase wl k := by
  simp [wlErase, List.filter_append]

/-! ## Sort and maximum facts -/

theorem sortAsc_perm (ts : List Tweet) : (sortAsc ts).Perm ts :=
  List.perm_insertionSort _ ts

theorem sortAsc_pairwise (ts : List Tweet) :
    (sortAsc ts).Pairwise (fun a b => a.id ≤ b.id) :=
  List.sorted_insertionSort _ ts

theorem mem_sortAsc {ts : List Tweet} {t : Tweet} :
    t ∈ sortAsc ts ↔ t ∈ ts :=
  (sortAsc_perm ts).mem_iff

theorem sortAsc_ne_nil {ts : List Tweet} (h : ts ≠ []) : sortAsc ts ≠ [] := by
  intro he
  have hlen := (sortAsc_perm ts).length_eq
  rw [he] at hlen
  exact h (List.length_eq_zero.mp hlen.symm)

theorem pairwise_le_getLastD (l : List Tweet)
    (hs : l.Pairwise (fun a b => a.id ≤ b.id)) :
    ∀ x ∈ l, x.id ≤ (match l.getLast? with | some t => t.id | none => 0) := by
  induction l with
  | nil => intro x hx; cases hx
  | cons h rest ih =>
    intro x hx
    rcases List.pairwise_cons.mp hs with ⟨hh, hrest⟩
    cases rest with
    | nil =>
      rcases List.mem_singleton.mp hx with rfl
      exact Nat.le_refl _
    | cons r rs =>
      have hlast : (h :: r :: rs).getLast? = (r :: rs).getLast? :=
        List.getLast?_cons_cons
      rw [hlast]
      rcases List.mem_cons.mp hx with rfl | hx2
      · have hne : (r :: rs) ≠ ([] : List Tweet) := by simp
        have hmem : (r :: rs).getLast hne ∈ r :: rs := List.getLast_mem hne
        have h1 : x.id ≤ ((r :: rs).getLast hne).id := hh _ hmem
        have h2 : (r :: rs).getLast? = some ((r :: rs).getLast hne) :=
          List.getLast?_eq_getLast _ hne
        rw [h2]
        exact h1
      · exact ih hrest x hx2

theorem newestOf_spec {ts : List Tweet} (h : ts ≠ []) :
    (∃ t ∈ ts, newestOf ts = t.id) ∧ (∀ t ∈ ts, t.id ≤ newestOf ts) := by
  have hne : sortAsc ts ≠ [] := sortAsc_ne_nil h
  have hlast : (sortAsc ts).getLast? = some ((sortAsc ts).getLast hne) :=
    List.getLast?_eq_getLast _ hne
  constructor
  · refine ⟨(sortAsc ts).getLast hne, ?_, ?_⟩
    · exact mem_sortAsc.mp (List.getLast_mem hne)
    · simp [newestOf, hlast]
  · intro t ht
    have := pairwise_le_getLastD (sortAsc ts) (sortAsc_pairwise ts) t (mem_sortAsc.mpr ht)
    simpa [newestOf] using this

theorem le_foldl_max (l : List Nat) (a : Nat) :
    (a ≤ l.foldl max a) ∧ (∀ x ∈ l, x ≤ l.foldl max a) := by
  induction l generalizing a with
  | nil => simp
  | cons h rest ih =>
    rcases ih (max a h) with ⟨h1, h2⟩
    refine ⟨le_trans (le_max_left a h) h1, ?_⟩
    intro x hx
    rcases List.mem_cons.mp hx with rfl | hx2
    · exact le_trans (le_max_right a x) h1
    · exact h2 x hx2

theorem foldl_max_mem (l : List Nat) (a : Nat) :
    l.foldl max a = a ∨ l.foldl max a ∈ l := by
  induction l generalizing a with
  | nil => simp
  | cons h rest ih =>
    rcases ih (max a h) with h1 | h1
    · rcases Nat.le_total a h with hle | hle
      · right
        rw [List.foldl_cons, h1, max_eq_right hle]
        exact List.mem_cons_self _ _
      · left
        rw [List.foldl_cons, h1, max_eq_left hle]
    · right
      exact List.mem_cons_of_mem _ h1

theorem maxIdOf_spec {ts : List Tweet} (h : ts ≠ []) :
    (∃ t ∈ ts, maxIdOf ts = t.id) ∧ (∀ t ∈ ts, t.id ≤ maxIdOf ts) := by
  have hub : ∀ t ∈ ts, t.id ≤ maxIdOf ts := by
    intro t ht
    exact (le_foldl_max (ts.map (fun t => t.id)) 0).2 _ (List.mem_map_of_mem _ ht)
  refine ⟨?_, hub⟩
  rcases foldl_max_mem (ts.map (fun t => t.id)) 0 with h1 | h1
  · cases ts with
    | nil => exact absurd rfl h
    | cons t rest =>
      refine ⟨t, List.mem_cons_self _ _, ?_⟩
      have hle : t.id ≤ maxIdOf (t :: rest) := hub t (List.mem_cons_self _ _)
      have h0 : maxIdOf (t :: rest) = 0 := h1
      omega
  · rcases List.mem_map.mp h1 with ⟨t, ht, hid⟩
    exact ⟨t, ht, hid.symm⟩

theorem newestOf_eq_maxIdOf {ts : List Tweet} (h : ts ≠ []) :
    newestOf ts = maxIdOf ts := by
  rcases newestOf_spec h with ⟨⟨t1, ht1, he1⟩, hub1⟩
  rcases maxIdOf_spec h with ⟨⟨t2, ht2, he2⟩, hub2⟩
  have h1 : newestOf ts ≤ maxIdOf ts := he1 ▸ hub2 t1 ht1
  have h2 : maxIdOf ts ≤ newestOf ts := he2 ▸ hub1 t2 ht2
  omega

/-! ## Per-tick characterization of the poller

`pollResultEntry` / `userEvents` / `seedResultEntry` describe what one tick
does to a single account; the lemmas below show the loops realize them
pointwise on any well-formed registry. -/

theorem pollUser_snd (fetch : WatchedUser → Except Unit (List Tweet))
    (wl : Watchlist) (u : WatchedUser) :
    (pollUser fetch wl u).2 = userEvents fetch u := by
  cases hf : fetch u with
  | error e => simp [pollUser, userEvents, hf]
  | ok ts =>
    by_cases he : ts.isEmpty
    · simp [pollUser, userEvents, hf, he]
    · simp [pollUser, userEvents, hf, he]

theorem pollUser_lookup_self (fetch : WatchedUser → Except Unit (List Tweet))
    {wl : Watchlist} {u : WatchedUser}
    (hu : wlLookup wl (ukey u) = some u) :
    wlLookup (pollUser fetch wl u).1 (ukey u) = some (pollResultEntry fetch u) := by
  cases hf : fetch u with
  | error e => simp [pollUser, pollResultEntry, hf, hu]
  | ok ts =>
    by_cases he : ts.isEmpty
    · simp [pollUser, pollResultEntry, hf, he, hu]
    · have hc : wlContains wl (ukey u) = true := by
        simp [wlContains, hu]
      simp [pollUser, pollResultEntry, hf, he, hc, wlLookup_setSince, hu]

theorem pollUser_lookup_other (fetch : WatchedUser → Except Unit (List Tweet))
    (wl : Watchlist) (u : WatchedUser) {k : String} (hk : k ≠ ukey u) :
    wlLookup (pollUser fetch wl u).1 k = wlLookup wl k := by
  cases hf : fetch u with
  | error e => simp [pollUser, hf]
  | ok ts =>
    by_cases he : ts.isEmpty
    · simp [pollUser, hf, he]
    · by_cases hc : wlContains wl (ukey u)
      · simp [pollUser, hf, he, hc, wlLookup_setSince, hk]
      · simp [pollUser, hf, he, hc]

theorem seedUser_snd (fetch : WatchedUser → Except Unit (List Tweet))
    (wl : Watchlist) (u : WatchedUser) :
    (seedUser fetch wl u).2 = [] := by
  cases hf : fetch u with
  | error e => simp [seedUser, hf]
  | ok ts =>
    by_cases he : ts.isEmpty
    · simp [seedUser, hf, he]
    · simp [seedUser, hf, he]

theorem seedUser_lookup_self (fetch : WatchedUser → Except Unit (List Tweet))
    {wl : Watchlist} {u : WatchedUser}
    (hu : wlLookup wl (ukey u) = some u) :
    wlLookup (seedUser fetch wl u).1 (ukey u) = some (seedResultEntry fetch u) := by
  cases hf : fetch u with
  | error e => simp [seedUser, seedResultEntry, hf, hu]
  | ok ts =>
    by_cases he : ts.isEmpty
    · simp [seedUser, seedResultEntry, hf, he, hu]
    · have hc : wlContains wl (ukey u) = true := by
        simp [wlContains, hu]
      simp [seedUser, seedResultEntry, hf, he, hc, wlLookup_setSince, hu]

theorem seedUser_lookup_other (fetch : WatchedUser → Except Unit (List Tweet))
    (wl : Watchlist) (u : WatchedUser) {k : String} (hk : k ≠ ukey u) :
    wlLookup (seedUser fetch wl u).1 k = wlLookup wl k := by
  cases hf : fetch u with
  | error e => simp [seedUser, hf]
  | ok ts =>
    by_cases he : ts.isEmpty
    · simp [seedUser, hf, he]
    · by_cases hc : wlContains wl (ukey u)
      · simp [seedUser, hf, he, hc, wlLookup_setSince, hk]
      · simp [seedUser, hf, he, hc]

theorem pollAccounts_events (fetch : WatchedUser → Except Unit (List Tweet))
    (us : List WatchedUser) (wl : Watchlist) :
    (pollAccounts fetch us wl).2 = (us.map (userEvents fetch)).flatten := by
  induction us generalizing wl with
  | nil => simp [pollAccounts]
  | cons u rest ih =>
    simp [pollAccounts, pollUser_snd, ih]

theorem pollAccounts_lookup (fetch : WatchedUser → Except Unit (List Tweet))
    (us : List WatchedUser) (wl : Watchlist)
    (hdist : us.Pairwise (fun a b => ukey a ≠ ukey b))
    (hmem : ∀ u ∈ us, wlLookup wl (ukey u) = some u) :
    (∀ u ∈ us, wlLookup (pollAccounts fetch us wl).1 (ukey u)
        = some (pollResultEntry fetch u)) ∧
    (∀ k, (∀ u ∈ us, ukey u ≠ k) →
        wlLookup (pollAccounts fetch us wl).1 k = wlLookup wl k) := by
  induction us generalizing wl with
  | nil => exact ⟨fun u hu => absurd hu (List.not_mem_nil u), fun k _ => rfl⟩
  | cons u rest ih =>
    rcases List.pairwise_cons.mp hdist with ⟨hu_rest, hdist_rest⟩
    have hu : wlLookup wl (ukey u) = some u := hmem u (List.mem_cons_self _ _)
    have h1self := pollUser_lookup_self fetch hu
    have h1other := fun k hk => pollUser_lookup_other fetch wl u (k := k) hk
    have hmem1 : ∀ r ∈ rest, wlLookup (pollUser fetch wl u).1 (ukey r) = some r := by
      intro r hr
      rw [h1other (ukey r) (fun he => (hu_rest r hr) he.symm)]
      exact hmem r (List.mem_cons_of_mem _ hr)
    rcases ih (pollUser fetch wl u).1 hdist_rest hmem1 with ⟨ihself, ihother⟩
    constructor
    · intro v hv
      rcases List.mem_cons.mp hv with rfl | hv2
      · have hrest_ne : ∀ r ∈ rest, ukey r ≠ ukey v := by
          intro r hr
          exact fun he => (hu_rest r hr) he.symm
        calc wlLookup (pollAccounts fetch (v :: rest) wl).1 (ukey v)
            = wlLookup (pollAccounts fetch rest (pollUser fetch wl v).1).1 (ukey v) := by
              simp [pollAccounts]
          _ = wlLookup (pollUser fetch wl v).1 (ukey v) := ihother (ukey v) hrest_ne
          _ = some (pollResultEntry fetch v) := h1self
      · calc wlLookup (pollAccounts fetch (u :: rest) wl).1 (ukey v)
            = wlLookup (pollAccounts fetch rest (pollUser fetch wl u).1).1 (ukey v) := by
              simp [pollAccounts]
          _ = some (pollResultEntry fetch v) := ihself v hv2
    · intro k hk
      calc wlLookup (pollAccounts fetch (u :: rest) wl).1 k
          = wlLookup (pollAccounts fetch rest (pollUser fetch wl u).1).1 k := by
            simp [pollAccounts]
        _ = wlLookup (pollUser fetch wl u).1 k :=
            ihother k (fun r hr => hk r (List.mem_cons_of_mem _ hr))
        _ = wlLookup wl k :=
            h1other k (fun he => hk u (List.mem_cons_self _ _) he.symm)

theorem seedAccounts_events (fetch : WatchedUser → Except Unit (List Tweet))
    (us : List WatchedUser) (wl : Watchlist) :
    (seedAccounts fetch us wl).2 = [] := by
  induction us generalizing wl with
  | nil => simp [seedAccounts]
  | cons u rest ih =>
    simp [seedAccounts, seedUser_snd, ih]

theorem seedAccounts_lookup (fetch : WatchedUser → Except Unit (List Tweet))
    (us : List WatchedUser) (wl : Watchlist)
    (hdist : us.Pairwise (fun a b => ukey a ≠ ukey b))
    (hmem : ∀ u ∈ us, wlLookup wl (ukey u) = some u) :
    (∀ u ∈ us, wlLookup (seedAccounts fetch us wl).1 (ukey u)
        = some (seedResultEntry fetch u)) ∧
    (∀ k, (∀ u ∈ us, ukey u ≠ k) →
        wlLookup (seedAccounts fetch us wl).1 k = wlLookup wl k) := by
  induction us generalizing wl with
  | nil => exact ⟨fun u hu => absurd hu (List.not_mem_nil u), fun k _ => rfl⟩
  | cons u rest ih =>
    rcases List.pairwise_cons.mp hdist with ⟨hu_rest, hdist_rest⟩
    have hu : wlLookup wl (ukey u) = some u := hmem u (List.mem_cons_self _ _)
    have h1self := seedUser_lookup_self fetch hu
    have h1other := fun k hk => seedUser_lookup_other fetch wl u (k := k) hk
    have hmem1 : ∀ r ∈ rest, wlLookup (seedUser fetch wl u).1 (ukey r) = some r := by
      intro r hr
      rw [h1other (ukey r) (fun he => (hu_rest r hr) he.symm)]
      exact hmem r (List.mem_cons_of_mem _ hr)
    rcases ih (seedUser fetch wl u).1 hdist_rest hmem1 with ⟨ihself, ihother⟩
    constructor
    · intro v hv
      rcases List.mem_cons.mp hv with rfl | hv2
      · have hrest_ne : ∀ r ∈ rest, ukey r ≠ ukey v := by
          intro r hr
          exact fun he => (hu_rest r hr) he.symm
        calc wlLookup (seedAccounts fetch (v :: rest) wl).1 (ukey v)
            = wlLookup (seedAccounts fetch rest (seedUser fetch wl v).1).1 (ukey v) := by
              simp [seedAccounts]
          _ = wlLookup (seedUser fetch wl v).1 (ukey v) := ihother (ukey v) hrest_ne
          _ = some (seedResultEntry fetch v) := h1self
      · calc wlLookup (seedAccounts fetch (u :: rest) wl).1 (ukey v)
            = wlLookup (seedAccounts fetch rest (seedUser fetch wl u).1).1 (ukey v) := by
              simp [seedAccounts]
          _ = some (seedResultEntry fetch v) := ihself v hv2
    · intro k hk
      calc wlLookup (seedAccounts fetch (u :: rest) wl).1 k
          = wlLookup (seedAccounts fetch rest (seedUser fetch wl u).1).1 k := by
            simp [seedAccounts]
        _ = wlLookup (seedUser fetch wl u).1 k :=
            ihother k (fun r hr => hk r (List.mem_cons_of_mem _ hr))
        _ = wlLookup wl k :=
            h1other k (fun he => hk u (List.mem_cons_self _ _) he.symm)

/-! ## Whole-registry consequences -/

theorem wf_users_mem {wl : Watchlist} (hwf : WFW wl) :
    ∀ u ∈ wl.map (fun p => p.2), wlLookup wl (ukey u) = some u := by
  intro u hu
  rcases List.mem_map.mp hu with ⟨p, hp, rfl⟩
  have hk : p.1 = ukey p.2 := hwf.1 p hp
  have := mem_wlLookup hwf.2 (by
    have : (p.1, p.2) ∈ wl := by
      cases p
      exact hp
    exact this)
  rw [hk] at this
  exact this

theorem wf_users_dist {wl : Watchlist} (hwf : WFW wl) :
    (wl.map (fun p => p.2)).Pairwise (fun a b => ukey a ≠ ukey b) := by
  rw [List.pairwise_map]
  refine List.Pairwise.imp_of_mem ?_ hwf.2
  intro p q hp hq hne
  intro he
  exact hne (by rw [hwf.1 p hp, hwf.1 q hq, he])

theorem pollOnce_lookup (fetch : WatchedUser → Except Unit (List Tweet))
    {wl : Watchlist} (hwf : WFW wl) {k : String} {u : WatchedUser}
    (hu : wlLookup wl k = some u) :
    wlLookup (pollOnce fetch wl).1 k = some (pollResultEntry fetch u) := by
  have hp : (k, u) ∈ wl := wlLookup_mem hu
  have hk : k = ukey u := hwf.1 (k, u) hp
  have humem : u ∈ wl.map (fun p => p.2) := List.mem_map_of_mem _ hp
  have := (pollAccounts_lookup fetch (wl.map (fun p => p.2)) wl
    (wf_users_dist hwf) (wf_users_mem hwf)).1 u humem
  rw [hk]
  exact this

theorem pollOnce_events (fetch : WatchedUser → Except Unit (List Tweet))
    (wl : Watchlist) :
    (pollOnce fetch wl).2 = ((wl.map (fun p => p.2)).map (userEvents fetch)).flatten :=
  pollAccounts_events fetch _ wl

theorem pollOnce_events_block (fetch : WatchedUser → Except Unit (List Tweet))
    {wl : Watchlist} {k : String} {u : WatchedUser}
    (hu : wlLookup wl k = some u) :
    ∃ pre post, (pollOnce fetch wl).2 = pre ++ userEvents fetch u ++ post := by
  have hp : (k, u) ∈ wl := wlLookup_mem hu
  have humem : u ∈ wl.map (fun p => p.2) := List.mem_map_of_mem _ hp
  rcases List.append_of_mem humem with ⟨s, t, hst⟩
  refine ⟨(s.map (userEvents fetch)).flatten, (t.map (userEvents fetch)).flatten, ?_⟩
  rw [pollOnce_events, hst]
  simp

theorem seedSinceIds_events (fetch : WatchedUser → Except Unit (List Tweet))
    (wl : Watchlist) : (seedSinceIds fetch wl).2 = [] :=
  seedAccounts_events fetch _ wl

theorem seed_users_mem {wl : Watchlist} (hwf : WFW wl) :
    ∀ u ∈ (wl.filter (fun p => p.2.since_id.isNone)).map (fun p => p.2),
      wlLookup wl (ukey u) = some u := by
  intro u hu
  rcases List.mem_map.mp hu with ⟨p, hp, rfl⟩
  have hpw : p ∈ wl := List.mem_of_mem_filter hp
  have hk : p.1 = ukey p.2 := hwf.1 p hpw
  have := mem_wlLookup hwf.2 (show (p.1, p.2) ∈ wl by cases p; exact hpw)
  rw [hk] at this
  exact this

theorem seed_users_dist {wl : Watchlist} (hwf : WFW wl) :
    ((wl.filter (fun p => p.2.since_id.isNone)).map (fun p => p.2)).Pairwise
      (fun a b => ukey a ≠ ukey b) := by
  rw [List.pairwise_map]
  have hsub : KeysDistinct (wl.filter (fun p => p.2.since_id.isNone)) :=
    List.Pairwise.sublist (List.filter_sublist wl) hwf.2
  refine List.Pairwise.imp_of_mem ?_ hsub
  intro p q hp hq hne
  have hpw : p ∈ wl := List.mem_of_mem_filter hp
  have hqw : q ∈ wl := List.mem_of_mem_filter hq
  intro he
  exact hne (by rw [hwf.1 p hpw, hwf.1 q hqw, he])

theorem seedSinceIds_lookup_absent (fetch : WatchedUser → Except Unit (List Tweet))
    {wl : Watchlist} (hwf : WFW wl) {k : String} {u : WatchedUser}
    (hu : wlLookup wl k = some u) (hn : u.since_id = none) :
    wlLookup (seedSinceIds fetch wl).1 k = some (seedResultEntry fetch u) := by
  have hp : (k, u) ∈ wl := wlLookup_mem hu
  have hk : k = ukey u := hwf.1 (k, u) hp
  have hpf : (k, u) ∈ wl.filter (fun p => p.2.since_id.isNone) := by
    refine List.mem_filter.mpr ⟨hp, ?_⟩
    simp [hn]
  have humem : u ∈ (wl.filter (fun p => p.2.since_id.isNone)).map (fun p => p.2) :=
    List.mem_map_of_mem _ hpf
  have := (seedAccounts_lookup fetch _ wl (seed_users_dist hwf) (seed_users_mem hwf)).1
    u humem
  rw [hk]
  exact this

theorem seedSinceIds_lookup_present (fetch : WatchedUser → Except Unit (List Tweet))
    {wl : Watchlist} (hwf : WFW wl) {k : String} {u : WatchedUser}
    (hu : wlLookup wl k = some u) (hn : u.since_id ≠ none) :
    wlLookup (seedSinceIds fetch wl).1 k = some u := by
  have hp : (k, u) ∈ wl := wlLookup_mem hu
  have hfresh : ∀ v ∈ (wl.filter (fun p => p.2.since_id.isNone)).map (fun p => p.2),
      ukey v ≠ k := by
    intro v hv
    rcases List.mem_map.mp hv with ⟨q, hq, rfl⟩
    have hqw : q ∈ wl := List.mem_of_mem_filter hq
    have hqn : q.2.since_id = none := by
      have := (List.mem_filter.mp hq).2
      simpa using this
    intro he
    have hkq : q.1 = ukey q.2 := hwf.1 q hqw
    have : (k, u) = q := keys_unique hwf.2 hp hqw (by rw [hkq, he])
    rw [← this] at hqn
    exact hn hqn
  have := (seedAccounts_lookup fetch _ wl (seed_users_dist hwf) (seed_users_mem hwf)).2
    k hfresh
  simp only [seedSinceIds]
  rw [this, hu]

/-! ## Claim theorems -/

theorem isEmpty_false_of_ne_nil {α : Type} {l : List α} (h : l ≠ []) :
    l.isEmpty = false := by
  cases l with
  | nil => exact absurd rfl h
  | cons a t => rfl

theorem wmLE_refl (a : Option Nat) : wmLE a a :=
  fun x hx => ⟨x, hx, Nat.le_refl x⟩

/-- C3: on a successful non-empty fetch for a watched account, the tick
dispatches exactly one notification event per returned item — the event
block is the id-ascending sort of the returned items, a permutation of
them, dispatched in that order — and afterwards the account's watermark
equals the maximum item id among the returned items. -/
theorem poll_dispatch_ascending_and_watermark
    (fetch : WatchedUser → Except Unit (List Tweet)) {wl : Watchlist}
    {k : String} {u : WatchedUser} {ts : List Tweet}
    (hwf : WFW wl) (hu : wlLookup wl k = some u)
    (hok : fetch u = .ok ts) (hne : ts ≠ []) :
    (∃ pre post, (pollOnce fetch wl).2 = pre ++ (sortAsc ts).map (mkHook u) ++ post) ∧
    (sortAsc ts).Perm ts ∧
    (sortAsc ts).Pairwise (fun a b => a.id ≤ b.id) ∧
    wlLookup (pollOnce fetch wl).1 k = some { u with since_id := some (maxIdOf ts) } ∧
    (∀ t ∈ ts, t.id ≤ maxIdOf ts) ∧ (∃ t ∈ ts, maxIdOf ts = t.id) := by
  have hemp : ts.isEmpty = false := isEmpty_false_of_ne_nil hne
  have hue : userEvents fetch u = (sortAsc ts).map (mkHook u) := by
    simp [userEvents, hok, hemp]
  have hblock := pollOnce_events_block fetch hu
  rw [hue] at hblock
  have hlook := pollOnce_lookup fetch hwf hu
  have hpre : pollResultEntry fetch u = { u with since_id := some (maxIdOf ts) } := by
    simp [pollResultEntry, hok, hemp, newestOf_eq_maxIdOf hne]
  rw [hpre] at hlook
  exact ⟨hblock, sortAsc_perm ts, sortAsc_pairwise ts, hlook,
    (maxIdOf_spec hne).2, (maxIdOf_spec hne).1⟩

theorem poll_dispatch_witness :
    (∃ pre post, (pollOnce fetchC3 wlC3).2
        = pre ++ (sortAsc tsC3).map (mkHook aliceC3) ++ post) ∧
    (sortAsc tsC3).Perm tsC3 ∧
    (sortAsc tsC3).Pairwise (fun a b => a.id ≤ b.id) ∧
    wlLookup (pollOnce fetchC3 wlC3).1 "ALICE"
        = some { aliceC3 with since_id := some (maxIdOf tsC3) } ∧
    (∀ t ∈ tsC3, t.id ≤ maxIdOf tsC3) ∧ (∃ t ∈ tsC3, maxIdOf tsC3 = t.id) :=
  @poll_dispatch_ascending_and_watermark fetchC3 wlC3 "ALICE" aliceC3 tsC3
    (by decide) (by decide) rfl (by decide)

/-- C5: in the seeding pass, an account with an absent watermark whose
fetch returns items gets its watermark set to the maximum returned item id
while the pass emits zero notification events; a failed or empty fetch
leaves the entry (and its absent watermark) untouched. -/
theorem seeding_sets_watermark_without_events
    (fetch : WatchedUser → Except Unit (List Tweet)) {wl : Watchlist}
    {k : String} {u : WatchedUser}
    (hwf : WFW wl) (hu : wlLookup wl k = some u) (hn : u.since_id = none) :
    (seedSinceIds fetch wl).2 = [] ∧
    (∀ ts, fetch u = .ok ts → ts ≠ [] →
        wlLookup (seedSinceIds fetch wl).1 k
            = some { u with since_id := some (maxIdOf ts) } ∧
        (∀ t ∈ ts, t.id ≤ maxIdOf ts) ∧ (∃ t ∈ ts, maxIdOf ts = t.id)) ∧
    (∀ e, fetch u = .error e → wlLookup (seedSinceIds fetch wl).1 k = some u) ∧
    (fetch u = .ok [] → wlLookup (seedSinceIds fetch wl).1 k = some u) := by
  refine ⟨seedSinceIds_events fetch wl, ?_, ?_, ?_⟩
  · intro ts hok hne
    have hemp : ts.isEmpty = false := isEmpty_false_of_ne_nil hne
    have hlook := seedSinceIds_lookup_absent fetch hwf hu hn
    have hseed : seedResultEntry fetch u = { u with since_id := some (maxIdOf ts) } := by
      simp [seedResultEntry, hok, hemp]
    rw [hseed] at hlook
    exact ⟨hlook, (maxIdOf_spec hne).2, (maxIdOf_spec hne).1⟩
  · intro e herr
    have hlook := seedSinceIds_lookup_absent fetch hwf hu hn
    have hseed : seedResultEntry fetch u = u := by
      simp [seedResultEntry, herr]
    rw [hseed] at hlook
    exact hlook
  · intro hok
    have hlook := seedSinceIds_lookup_absent fetch hwf hu hn
    have hseed : seedResultEntry fetch u = u := by
      simp [seedResultEntry, hok]
    rw [hseed] at hlook
    exact hlook

theorem seeding_witness :
    (seedSinceIds fetchC5 wlC5).2 = [] ∧
    (∀ ts, fetchC5 bobC5 = .ok ts → ts ≠ [] →
        wlLookup (seedSinceIds fetchC5 wlC5).1 "BOB"
            = some { bobC5 with since_id := some (maxIdOf ts) } ∧
        (∀ t ∈ ts, t.id ≤ maxIdOf ts) ∧ (∃ t ∈ ts, maxIdOf ts = t.id)) ∧
    (∀ e, fetchC5 bobC5 = .error e → wlLookup (seedSinceIds fetchC5 wlC5).1 "BOB" = some bobC5) ∧
    (fetchC5 bobC5 = .ok [] → wlLookup (seedSinceIds fetchC5 wlC5).1 "BOB" = some bobC5) :=
  @seeding_sets_watermark_without_events fetchC5 wlC5 "BOB" bobC5
    (by decide) (by decide) rfl

/-- C6: under the precondition that the feed source only returns items with
ids strictly above the watermark it was queried with, both a poll tick and
the seeding pass leave every account's watermark at or above its previous
value (absent counts as the bottom). -/
theorem watermark_monotone
    (fetch : WatchedUser → Except Unit (List Tweet)) {wl : Watchlist}
    (hwf : WFW wl)
    (hfresh : ∀ u ts, fetch u = .ok ts → ∀ t ∈ ts, ∀ w, u.since_id = some w → w < t.id)
    {k : String} {u p s : WatchedUser}
    (hu : wlLookup wl k = some u)
    (hp : wlLookup (pollOnce fetch wl).1 k = some p)
    (hs : wlLookup (seedSinceIds fetch wl).1 k = some s) :
    wmLE u.since_id p.since_id ∧ wmLE u.since_id s.since_id := by
  constructor
  · have hlook := pollOnce_lookup fetch hwf hu
    rw [hp] at hlook
    injection hlook with hpe
    rw [hpe]
    cases hf : fetch u with
    | error e => simp [pollResultEntry, hf, wmLE_refl]
    | ok ts =>
      by_cases hemp : ts.isEmpty
      · simp [pollResultEntry, hf, hemp, wmLE_refl]
      · have hne : ts ≠ [] := by
          cases ts with
          | nil => simp at hemp
          | cons a t => simp
        rcases (newestOf_spec hne).1 with ⟨t, ht, hid⟩
        intro x hx
        refine ⟨newestOf ts, ?_, ?_⟩
        · simp [pollResultEntry, hf, hemp]
        · have := hfresh u ts hf t ht x hx
          omega
  · have hlook : wlLookup (seedSinceIds fetch wl).1 k = some s := hs
    cases hn : u.since_id with
    | none => intro x hx; cases hx
    | some w =>
      have hne : u.since_id ≠ none := by rw [hn]; simp
      have := seedSinceIds_lookup_present fetch hwf hu hne
      rw [hs] at this
      injection this with hse
      rw [hse, hn]
      exact wmLE_refl _

theorem fetchC6_fresh :
    ∀ u ts, fetchC6 u = .ok ts → ∀ t ∈ ts, ∀ w, u.since_id = some w → w < t.id := by
  intro u ts hts t ht w hw
  simp only [fetchC6, Except.ok.injEq] at hts
  subst hts
  rcases List.mem_singleton.mp ht with rfl
  simp [hw]

theorem watermark_monotone_witness :
    wmLE daveC6.since_id (WatchedUser.mk "dave" "44" (some 101) "t0").since_id ∧
    wmLE daveC6.since_id daveC6.since_id :=
  @watermark_monotone fetchC6 wlC6 (by decide) fetchC6_fresh "DAVE" daveC6
    (WatchedUser.mk "dave" "44" (some 101) "t0") daveC6
    (by decide) (by decide) (by decide)

/-- C7: within one tick, an account whose fetch fails is left untouched
while an account whose fetch succeeds still has its events dispatched and
its watermark advanced — one account's failure does not abort the tick. -/
theorem tick_isolates_failures
    (fetch : WatchedUser → Except Unit (List Tweet)) {wl : Watchlist}
    {kA kB : String} {a b : WatchedUser} {ts : List Tweet}
    (hwf : WFW wl)
    (ha : wlLookup wl kA = some a) (hb : wlLookup wl kB = some b)
    (hfa : fetch a = .error ()) (hfb : fetch b = .ok ts) (hne : ts ≠ []) :
    wlLookup (pollOnce fetch wl).1 kA = some a ∧
    wlLookup (pollOnce fetch wl).1 kB
        = some { b with since_id := some (maxIdOf ts) } ∧
    (∃ pre post, (pollOnce fetch wl).2 = pre ++ (sortAsc ts).map (mkHook b) ++ post) := by
  have hemp : ts.isEmpty = false := isEmpty_false_of_ne_nil hne
  have hlookA := pollOnce_lookup fetch hwf ha
  have hA : pollResultEntry fetch a = a := by
    simp [pollResultEntry, hfa]
  rw [hA] at hlookA
  have hlookB := pollOnce_lookup fetch hwf hb
  have hB : pollResultEntry fetch b = { b with since_id := some (maxIdOf ts) } := by
    simp [pollResultEntry, hfb, hemp, newestOf_eq_maxIdOf hne]
  rw [hB] at hlookB
  have hblock := pollOnce_events_block fetch hb
  have hue : userEvents fetch b = (sortAsc ts).map (mkHook b) := by
    simp [userEvents, hfb, hemp]
  rw [hue] at hblock
  exact ⟨hlookA, hlookB, hblock⟩

theorem tick_isolation_witness :
    wlLookup (pollOnce fetchC7 wlC7).1 "EVAN" = some evanC7 ∧
    wlLookup (pollOnce fetchC7 wlC7).1 "FAY"
        = some { fayC7 with since_id := some (maxIdOf tsC7) } ∧
    (∃ pre post, (pollOnce fetchC7 wlC7).2 = pre ++ (sortAsc tsC7).map (mkHook fayC7) ++ post) :=
  @tick_isolates_failures fetchC7 wlC7 "EVAN" "FAY" evanC7 fayC7 tsC7
    (by decide) (by decide) (by decide) rfl rfl (by decide)

/-- C1 counterexample: a poll tick over an account with an absent watermark
whose feed has one item fires a notification event for that item (the
events list is non-empty), rather than only seeding the watermark as the
claim states. -/
theorem poll_absent_watermark_counterexample :
    (pollOnce fetchC1 wlC1).2 = [mkHook aliceC1 ⟨7, "hello", some "2026-02-01T00:00:00+00:00"⟩] ∧
    (pollOnce fetchC1 wlC1).2 ≠ [] ∧
    wlLookup (pollOnce fetchC1 wlC1).1 "ALICE" = some { aliceC1 with since_id := some 7 } := by
  refine ⟨by decide, by decide, by decide⟩

/-- C1 amended: during a poll tick, an account with an absent watermark is
handled by the ordinary delivery path — the most recent items are fetched
and one notification event is dispatched per item, in ascending id order,
before the watermark is set to the maximum returned id.  (The seeding-pass
suppression only happens in `_seed_since_ids`, not in `_poll_once`.) -/
theorem poll_absent_watermark_delivers_backlog
    (fetch : WatchedUser → Except Unit (List Tweet)) {wl : Watchlist}
    {k : String} {u : WatchedUser} {ts : List Tweet}
    (hwf : WFW wl) (hu : wlLookup wl k = some u) (_hn : u.since_id = none)
    (hok : fetch u = .ok ts) (hne : ts ≠ []) :
    (∃ pre post, (pollOnce fetch wl).2 = pre ++ (sortAsc ts).map (mkHook u) ++ post) ∧
    (sortAsc ts).map (mkHook u) ≠ [] ∧
    wlLookup (pollOnce fetch wl).1 k = some { u with since_id := some (maxIdOf ts) } := by
  have hemp : ts.isEmpty = false := isEmpty_false_of_ne_nil hne
  have hue : userEvents fetch u = (sortAsc ts).map (mkHook u) := by
    simp [userEvents, hok, hemp]
  have hblock := pollOnce_events_block fetch hu
  rw [hue] at hblock
  have hlook := pollOnce_lookup fetch hwf hu
  have hpre : pollResultEntry fetch u = { u with since_id := some (maxIdOf ts) } := by
    simp [pollResultEntry, hok, hemp, newestOf_eq_maxIdOf hne]
  rw [hpre] at hlook
  refine ⟨hblock, ?_, hlook⟩
  intro hmap
  exact sortAsc_ne_nil hne (List.map_eq_nil_iff.mp hmap)

theorem poll_absent_watermark_delivers_witness :
    (∃ pre post, (pollOnce fetchC1 wlC1).2
        = pre ++ (sortAsc tlC1).map (mkHook aliceC1) ++ post) ∧
    (sortAsc tlC1).map (mkHook aliceC1) ≠ [] ∧
    wlLookup (pollOnce fetchC1 wlC1).1 "ALICE"
        = some { aliceC1 with since_id := some (maxIdOf tlC1) } :=
  @poll_absent_watermark_delivers_backlog fetchC1 wlC1 "ALICE" aliceC1 tlC1
    (by decide) (by decide) rfl rfl (by decide)

/-- C2 counterexample: with watermark 10 and six newer items 11..16 on the
timeline, the tick fetches only the five most recent (`max_results=5`),
dispatches events for 12..16, and advances the watermark to 16 — item 11
is new (id 11 > 10) yet gets no event while the watermark passes it. -/
theorem poll_skips_item_beyond_page_counterexample :
    ((pollOnce fetchC2 wlC2).2.map (fun h => h.tweet_id) = [12, 13, 14, 15, 16]) ∧
    wlLookup (pollOnce fetchC2 wlC2).1 "BOB" = some { bobC2 with since_id := some 16 } ∧
    ((11 : Nat) ∈ tlC2.map (fun t => t.id)) ∧ ((10 : Nat) < 11) ∧
    ¬ ((11 : Nat) ∈ (pollOnce fetchC2 wlC2).2.map (fun h => h.tweet_id)) := by
  refine ⟨by decide, by decide, by decide, by decide, by decide⟩

/-- C2 amended: per tick and account, each item of the fetched page — the
at most five most recent items newer than the watermark — is converted
into exactly one notification event (the ascending sort of the page,
dispatched in order) before the watermark advances to the page's maximum
id; new items older than the page receive no event although the advanced
watermark passes them. -/
theorem poll_delivers_fetched_page_before_advance
    (tl : List Tweet) {wl : Watchlist} {k : String} {u : WatchedUser} {w : Nat}
    (hwf : WFW wl) (hu : wlLookup wl k = some u) (hw : u.since_id = some w)
    (hne : twitterFetch tl (some w) ≠ []) :
    (∀ t ∈ twitterFetch tl (some w), t ∈ tl ∧ w < t.id) ∧
    (twitterFetch tl (some w)).length ≤ 5 ∧
    (∃ pre post, (pollOnce (fun v => Except.ok (twitterFetch tl v.since_id)) wl).2
        = pre ++ (sortAsc (twitterFetch tl (some w))).map (mkHook u) ++ post) ∧
    wlLookup (pollOnce (fun v => Except.ok (twitterFetch tl v.since_id)) wl).1 k
        = some { u with since_id := some (maxIdOf (twitterFetch tl (some w))) } := by
  have hmem : ∀ t ∈ twitterFetch tl (some w), t ∈ tl ∧ w < t.id := by
    intro t ht
    have h1 : t ∈ List.insertionSort (fun a b => b.id ≤ a.id)
        (tl.filter (fun t => decide (w < t.id))) := List.take_subset 5 _ ht
    have h2 : t ∈ tl.filter (fun t => decide (w < t.id)) :=
      (List.perm_insertionSort _ _).mem_iff.mp h1
    rcases List.mem_filter.mp h2 with ⟨h3, h4⟩
    exact ⟨h3, of_decide_eq_true h4⟩
  have hlen : (twitterFetch tl (some w)).length ≤ 5 :=
    List.length_take_le 5 _
  have hemp : (twitterFetch tl (some w)).isEmpty = false := isEmpty_false_of_ne_nil hne
  have hue : userEvents (fun v => Except.ok (twitterFetch tl v.since_id)) u
      = (sortAsc (twitterFetch tl (some w))).map (mkHook u) := by
    simp [userEvents, hw, hemp]
  have hblock := pollOnce_events_block (fun v => Except.ok (twitterFetch tl v.since_id)) hu
  rw [hue] at hblock
  have hlook := pollOnce_lookup (fun v => Except.ok (twitterFetch tl v.since_id)) hwf hu
  have hpre : pollResultEntry (fun v => Except.ok (twitterFetch tl v.since_id)) u
      = { u with since_id := some (maxIdOf (twitterFetch tl (some w))) } := by
    simp [pollResultEntry, hw, hemp, newestOf_eq_maxIdOf hne]
  rw [hpre] at hlook
  exact ⟨hmem, hlen, hblock, hlook⟩

theorem poll_page_witness :
    (∀ t ∈ twitterFetch tlC2 (some 10), t ∈ tlC2 ∧ 10 < t.id) ∧
    (twitterFetch tlC2 (some 10)).length ≤ 5 ∧
    (∃ pre post, (pollOnce (fun v => Except.ok (twitterFetch tlC2 v.since_id)) wlC2).2
        = pre ++ (sortAsc (twitterFetch tlC2 (some 10))).map (mkHook bobC2) ++ post) ∧
    wlLookup (pollOnce (fun v => Except.ok (twitterFetch tlC2 v.since_id)) wlC2).1 "BOB"
        = some { bobC2 with since_id := some (maxIdOf (twitterFetch tlC2 (some 10))) } :=
  @poll_delivers_fetched_page_before_advance tlC2 wlC2 "BOB" bobC2 10
    (by decide) (by decide) rfl (by decide)

/-- C4 counterexample: the payload `\x7b\x7d` — a JSON object with no
`data` key, hence not a recognizable list or envelope — is not rejected
with InvalidPayload: `backup_restore` clears the (non-empty) registry and
returns success with restored count 0. -/
theorem restore_unrecognized_counterexample :
    backupRestore "t1" (some (Json.obj [])) wlC4 = RestoreOutcome.okResult 0 [] ∧
    wlC4 ≠ [] := by
  refine ⟨by decide, by decide⟩

/-- C4 corrected: only a payload that fails JSON parsing is rejected, with
a structured error and the Registry untouched; a parsed JSON object
carrying no `data` key is accepted — the Registry is wiped and the call
returns success with restored count 0. -/
theorem restore_rejects_only_unparsed
    (now : String) (wl : Watchlist) (fields : List (String × Json))
    (hnodata : (List.lookup "data" fields).isNone = true) :
    backupRestore now none wl = RestoreOutcome.errorResult "Invalid JSON payload" wl ∧
    backupRestore now (some (Json.obj fields)) wl = RestoreOutcome.okResult 0 [] := by
  constructor
  · rfl
  · have hn0 : List.lookup "data" fields = none := Option.isNone_iff_eq_none.mp hnodata
    simp [backupRestore, jGet, hn0, pyIter, restoreLoop, pyLen]

theorem restore_rejects_only_unparsed_witness :
    backupRestore "t2" none wlC4 = RestoreOutcome.errorResult "Invalid JSON payload" wlC4 ∧
    backupRestore "t2" (some (Json.obj [("foo", Json.num 1)])) wlC4
        = RestoreOutcome.okResult 0 [] :=
  restore_rejects_only_unparsed "t2" wlC4 [("foo", Json.num 1)] (by decide)

theorem wlLookup_append (wl1 wl2 : Watchlist) (k : String) :
    wlLookup (wl1 ++ wl2) k =
      match wlLookup wl1 k with
      | some v => some v
      | none => wlLookup wl2 k := by
  induction wl1 with
  | nil => simp [wlLookup]
  | cons p rest ih =>
    by_cases hpk : p.1 = k
    · simp [wlLookup, hpk]
    · simp [wlLookup, hpk, ih]

theorem wlLookup_eq_none_of_not_contains {wl : Watchlist} {k : String}
    (h : wlContains wl k = false) : wlLookup wl k = none := by
  cases hl : wlLookup wl k with
  | none => rfl
  | some v =>
    rw [wlContains, hl] at h
    cases h

theorem restoreStep_export (now : String) (acc : Watchlist) (p : String × WatchedUser)
    (hkey : p.1 = ukey p.2) (hn1 : p.2.username ≠ "") (hn2 : p.2.user_id ≠ "")
    (hdisj : wlContains acc p.1 = false) :
    restoreStep now acc
        (exportEntryToJson ⟨p.2.username, p.2.user_id, p.2.since_id, p.2.added_at⟩)
      = .ok (acc ++ [p]) := by
  have hkey2 : pyUpper p.2.username = p.1 := hkey.symm
  have hset : wlSet acc (pyUpper p.2.username) p.2 = acc ++ [p] := by
    rw [hkey2, wlSet_not_contains hdisj]
  cases hs : p.2.since_id with
  | none =>
    simp only [restoreStep, exportEntryToJson, jGet, List.lookup, jTruthy, hs]
    simp [hn1, hn2]
    rw [show (⟨p.2.username, p.2.user_id, none, p.2.added_at⟩ : WatchedUser) = p.2 by
      rw [← hs]]
    exact hset
  | some n =>
    simp only [restoreStep, exportEntryToJson, jGet, List.lookup, jTruthy, hs]
    simp [hn1, hn2]
    rw [show (⟨p.2.username, p.2.user_id, some n, p.2.added_at⟩ : WatchedUser) = p.2 by
      rw [← hs]]
    exact hset

theorem restoreLoop_export (now : String) (wl : Watchlist) :
    ∀ acc : Watchlist,
      KeysConsistent wl → KeysDistinct wl → FieldsNonEmpty wl →
      (∀ p ∈ wl, wlContains acc p.1 = false) →
      restoreLoop now ((backupExport wl).map exportEntryToJson) acc = .ok (acc ++ wl) := by
  induction wl with
  | nil =>
    intro acc _ _ _ _
    simp [backupExport, restoreLoop]
  | cons p rest ih =>
    intro acc hcons hdist hfe hdisj
    have hstep := restoreStep_export now acc p (hcons p (List.mem_cons_self _ _))
      (hfe p (List.mem_cons_self _ _)).1 (hfe p (List.mem_cons_self _ _)).2
      (hdisj p (List.mem_cons_self _ _))
    have hdisj2 : ∀ q ∈ rest, wlContains (acc ++ [p]) q.1 = false := by
      intro q hq
      have hqa : wlLookup acc q.1 = none :=
        wlLookup_eq_none_of_not_contains (hdisj q (List.mem_cons_of_mem _ hq))
      have hpq : ¬ p.1 = q.1 := (List.pairwise_cons.mp hdist).1 q hq
      rw [wlContains, wlLookup_append, hqa]
      simp [wlLookup, hpq]
    have hrest := ih (acc ++ [p]) (fun q hq => hcons q (List.mem_cons_of_mem _ hq))
      (List.pairwise_cons.mp hdist).2 (fun q hq => hfe q (List.mem_cons_of_mem _ hq))
      hdisj2
    simp only [backupExport, List.map_cons, restoreLoop] at hrest ⊢
    simp only [hstep]
    rw [hrest]
    simp

/-- C8: importing the output of export reproduces the Registry exactly —
same keys in the same order, and for each entry the same username,
account id, watermark and added-at timestamp — whatever the registry
contained beforehand; the success count is the number of entries. -/
theorem export_import_roundtrip (now : String) (wl wl0 : Watchlist)
    (hwf : WFW wl) (hfe : FieldsNonEmpty wl) :
    backupRestore now (some (Json.arr ((backupExport wl).map exportEntryToJson))) wl0
      = RestoreOutcome.okResult wl.length wl := by
  have hloop := restoreLoop_export now wl [] hwf.1 hwf.2 hfe (fun p hp => rfl)
  rw [List.nil_append] at hloop
  simp only [backupRestore, pyIter]
  rw [hloop]
  simp [pyLen, backupExport]

theorem export_import_roundtrip_witness :
    backupRestore "t3" (some (Json.arr ((backupExport wlC8).map exportEntryToJson))) wlC8prior
      = RestoreOutcome.okResult wlC8.length wlC8 :=
  export_import_roundtrip "t3" wlC8 wlC8prior (by decide) (by decide)

theorem countP_zero_of_not_contains {wl : Watchlist} {k : String}
    (h : wlContains wl k = false) :
    wl.countP (fun p => p.1 == k) = 0 := by
  induction wl with
  | nil => rfl
  | cons p rest ih =>
    have hpk : ¬ p.1 = k := by
      intro he
      simp [wlContains, wlLookup, he] at h
    have hrest : wlContains rest k = false := by
      simpa [wlContains, wlLookup, hpk] using h
    rw [List.countP_cons]
    simp [hpk, ih hrest]

/-- C9: adding the same handle twice in any letter case leaves exactly one
registry entry under the uppercased key — the second call succeeds with
already-watched and changes nothing — and removing the handle in yet
another case deletes that entry, restoring the original registry. -/
theorem add_idempotent_case_insensitive
    (resolve : String → Option String) (now later : String)
    (s1 s2 s3 : String) (st0 : ServiceState) (uid : String)
    (h1 : cleanUsername s1 ≠ "")
    (h2 : cleanUsername s2 ≠ "")
    (h3 : cleanUsername s3 ≠ "")
    (hc2 : pyUpper (cleanUsername s2) = pyUpper (cleanUsername s1))
    (hc3 : pyUpper (cleanUsername s3) = pyUpper (cleanUsername s1))
    (hnew : wlContains st0.watchlist (pyUpper (cleanUsername s1)) = false)
    (hres : resolve (cleanUsername s1) = some uid) :
    (actionAdd resolve true now s1 st0).1 = AddResult.added (cleanUsername s1) uid ∧
    (actionAdd resolve true now s1 st0).2.watchlist
        = st0.watchlist
          ++ [(pyUpper (cleanUsername s1), ⟨cleanUsername s1, uid, none, now⟩)] ∧
    (actionAdd resolve true later s2 (actionAdd resolve true now s1 st0).2).1
        = AddResult.alreadyWatching (cleanUsername s1) ∧
    (actionAdd resolve true later s2 (actionAdd resolve true now s1 st0).2).2
        = (actionAdd resolve true now s1 st0).2 ∧
    (actionAdd resolve true now s1 st0).2.watchlist.countP
        (fun p => p.1 == pyUpper (cleanUsername s1)) = 1 ∧
    (actionRemove s3 (actionAdd resolve true now s1 st0).2).1
        = RemoveResult.stopped (cleanUsername s3) ∧
    (actionRemove s3 (actionAdd resolve true now s1 st0).2).2.watchlist
        = st0.watchlist := by
  have hr1 : actionAdd resolve true now s1 st0
      = (AddResult.added (cleanUsername s1) uid,
         { st0 with watchlist :=
             st0.watchlist
               ++ [(pyUpper (cleanUsername s1), ⟨cleanUsername s1, uid, none, now⟩)] }) := by
    simp [actionAdd, h1, hnew, hres, wlSet_not_contains hnew]
  have hlook1 : wlLookup (st0.watchlist
        ++ [(pyUpper (cleanUsername s1), ⟨cleanUsername s1, uid, none, now⟩)])
      (pyUpper (cleanUsername s1))
      = some ⟨cleanUsername s1, uid, none, now⟩ := by
    rw [wlLookup_append, wlLookup_eq_none_of_not_contains hnew]
    simp [wlLookup]
  have hcont1 : wlContains (st0.watchlist
        ++ [(pyUpper (cleanUsername s1), ⟨cleanUsername s1, uid, none, now⟩)])
      (pyUpper (cleanUsername s1)) = true := by
    rw [wlContains, hlook1]
    rfl
  refine ⟨by rw [hr1], by rw [hr1], ?_, ?_, ?_, ?_, ?_⟩
  · rw [hr1]
    simp [actionAdd, h2, hc2, hcont1, hlook1]
  · rw [hr1]
    simp [actionAdd, h2, hc2, hcont1]
  · rw [hr1]
    simp only []
    rw [List.countP_append, countP_zero_of_not_contains hnew]
    simp
  · rw [hr1]
    simp [actionRemove, h3, hc3, hcont1]
  · rw [hr1]
    simp only [actionRemove]
    simp [h3, hc3, hcont1, wlErase_append_single, wlErase_not_contains hnew]

theorem add_idempotent_witness :
    (actionAdd resolveC9 true "t0" "alice" stC9).1 = AddResult.added "alice" "42" ∧
    (actionAdd resolveC9 true "t0" "alice" stC9).2.watchlist
        = stC9.watchlist ++ [("ALICE", ⟨"alice", "42", none, "t0"⟩)] ∧
    (actionAdd resolveC9 true "t1" "@ALICE" (actionAdd resolveC9 true "t0" "alice" stC9).2).1
        = AddResult.alreadyWatching "alice" ∧
    (actionAdd resolveC9 true "t1" "@ALICE" (actionAdd resolveC9 true "t0" "alice" stC9).2).2
        = (actionAdd resolveC9 true "t0" "alice" stC9).2 ∧
    (actionAdd resolveC9 true "t0" "alice" stC9).2.watchlist.countP
        (fun p => p.1 == "ALICE") = 1 ∧
    (actionRemove "Alice" (actionAdd resolveC9 true "t0" "alice" stC9).2).1
        = RemoveResult.stopped "Alice" ∧
    (actionRemove "Alice" (actionAdd resolveC9 true "t0" "alice" stC9).2).2.watchlist
        = stC9.watchlist :=
  add_idempotent_case_insensitive resolveC9 "t0" "t1" "alice" "@ALICE" "Alice" stC9 "42"
    (by decide) (by decide) (by decide) (by decide) (by decide) (by decide) rfl

/-- C10: a requested interval strictly below the configured minimum of 30
seconds is rejected with the below-minimum error and the poll interval is
unchanged; any integer at or above the minimum becomes the new poll
interval. -/
theorem set_interval_floor (i : Int) (st : ServiceState) :
    (i < MIN_POLL_INTERVAL →
        actionSetInterval i st = (SetIntervalResult.errBelowMin, st)) ∧
    (MIN_POLL_INTERVAL ≤ i →
        actionSetInterval i st = (SetIntervalResult.ok i, { st with poll_interval := i })) := by
  constructor
  · intro h
    simp [actionSetInterval, h]
  · intro h
    simp [actionSetInterval, not_lt.mpr h]

theorem set_interval_floor_witness :
    actionSetInterval 5 stC10 = (SetIntervalResult.errBelowMin, stC10) ∧
    actionSetInterval 60 stC10 = (SetIntervalResult.ok 60, { stC10 with poll_interval := 60 }) :=
  ⟨(set_interval_floor 5 stC10).1 (by decide), (set_interval_floor 60 stC10).2 (by decide)⟩
